import Mathlib

/-!
Verification development for the schema utility module of a PostgreSQL
administration tool (browser/server_groups/servers/databases/schemas/utils.py).

Python strings are modelled as lists of characters (`Str`), Python integers as
`Int`/`Nat`, dictionaries as association lists, database result sets as
explicit parameters, and exceptions as `Option`/`Except` results.  Python
floats are modelled as exact rationals of the parsed decimal literal.  Each
model definition is a direct translation of the corresponding Python function.
-/

/-- Python strings are modelled as lists of characters. -/
abbrev Str := List Char

/-- Convert a Lean string literal into the character-list model. -/
def strL (s : String) : Str := s.toList

/-- Python `needle in s` style search helper: index of the first occurrence of
`needle` in the scanned suffix, or -1 when absent (like `str.find`). -/
def pyFindFrom (needle : Str) : Str → Int
  | [] => if needle.isPrefixOf ([] : Str) then 0 else -1
  | c :: rest =>
    if needle.isPrefixOf (c :: rest) then 0
    else
      let r := pyFindFrom needle rest
      if r = -1 then -1 else r + 1

/-- Python `s.find(needle)`: first index of `needle` in `s`, or -1. -/
def pyFind (s needle : Str) : Int := pyFindFrom needle s

/-- Normalise a Python slice index against a string length: negative indices
count from the end, and everything is clamped into [0, len]. -/
def pyNormIdx (len : Nat) (i : Int) : Nat :=
  if i < 0 then ((len : Int) + i).toNat else min i.toNat len

/-- Python slice `s[lo:hi]` with full negative-index and clamping semantics. -/
def pySlice (s : Str) (lo hi : Int) : Str :=
  (s.take (pyNormIdx s.length hi)).drop (pyNormIdx s.length lo)

/-- Python single-character index `s[i]` for non-negative `i`; `none` models
the `IndexError` raised when the index is out of range. -/
def pyIndex (s : Str) (i : Nat) : Option Char := s.get? i

/-- Python `s.startswith(p)`. -/
def pyStarts (s p : Str) : Bool := p.isPrefixOf s

/-- Python `s.endswith(p)`. -/
def pyEnds (s p : Str) : Bool := p.isSuffixOf s

/-- Python `s.rstrip(cs)`: remove every trailing character contained in `cs`. -/
def pyRstrip (s cs : Str) : Str :=
  (s.reverse.dropWhile (fun c => cs.contains c)).reverse

/-- Python `str(n)` for a natural number. -/
def natToChars (n : Nat) : Str := Nat.toDigits 10 n

/-- Python `str(i)` for an integer. -/
def intToChars (i : Int) : Str :=
  if i < 0 then '-' :: natToChars i.natAbs else natToChars i.toNat

/-- Python arithmetic right shift `a >> k` (floor division by 2^k). -/
def pyShr (a : Int) (k : Nat) : Int := Int.fdiv a ((2 : Int) ^ k)

/-- Python `a & mask` for the all-ones mask `2^k - 1`: equals `a mod 2^k`
under two's-complement semantics. -/
def pyAndMask (a : Int) (k : Nat) : Int := Int.emod a ((2 : Int) ^ k)

/-- Python `s.lower()` (ASCII, as used on the parsed rule fields). -/
def pyLower (s : Str) : Str := s.map Char.toLower

/-- Python `s.capitalize()`: first character upper-cased, the rest lowered. -/
def pyCapitalize : Str → Str
  | [] => []
  | c :: rest => Char.toUpper c :: rest.map Char.toLower

/-- The `elemoid_or_name` argument of `get_length_precision` is either a
numeric OID or a textual type name. -/
inductive ElemId where
  | oid (n : Nat)
  | nm (s : Str)
deriving DecidableEq

/-- Python truthiness of an `elemoid_or_name` value: `0` and `''` are falsy. -/
def elemTruthy : ElemId → Bool
  | .oid n => n ≠ 0
  | .nm s => s ≠ []

/-- The first membership tuple of `get_length_precision` (bucket `L`). -/
def lBucket : List ElemId :=
  [.oid 1560, .nm (strL "bit"),
   .oid 1561, .nm (strL "bit[]"),
   .oid 1562, .nm (strL "varbit"), .nm (strL "bit varying"),
   .oid 1563, .nm (strL "varbit[]"), .nm (strL "bit varying[]"),
   .oid 1042, .nm (strL "bpchar"), .nm (strL "character"),
   .oid 1043, .nm (strL "varchar"), .nm (strL "character varying"),
   .oid 1014, .nm (strL "bpchar[]"), .nm (strL "character[]"),
   .oid 1015, .nm (strL "varchar[]"), .nm (strL "character varying[]")]

/-- The second membership tuple of `get_length_precision` (bucket `D`). -/
def dBucket : List ElemId :=
  [.oid 1083, .nm (strL "time"), .nm (strL "time without time zone"),
   .oid 1114, .nm (strL "timestamp"), .nm (strL "timestamp without time zone"),
   .oid 1115, .nm (strL "timestamp[]"),
   .nm (strL "timestamp without time zone[]"),
   .oid 1183, .nm (strL "time[]"), .nm (strL "time without time zone[]"),
   .oid 1184, .nm (strL "timestamptz"), .nm (strL "timestamp with time zone"),
   .oid 1185, .nm (strL "timestamptz[]"),
   .nm (strL "timestamp with time zone[]"),
   .oid 1186, .nm (strL "interval"),
   .oid 1187, .nm (strL "interval[]"), .nm (strL "interval[]"),
   .oid 1266, .nm (strL "timetz"), .nm (strL "time with time zone"),
   .oid 1270, .nm (strL "timetz"), .nm (strL "time with time zone[]")]

/-- The third membership tuple of `get_length_precision` (bucket `P`). -/
def pBucket : List ElemId :=
  [.oid 1231, .nm (strL "numeric[]"),
   .oid 1700, .nm (strL "numeric")]

/-- The whole fixed enumeration of `get_length_precision`. -/
def lpEnumeration : List ElemId := lBucket ++ dBucket ++ pBucket

/-- Model of `DataTypeReader.get_length_precision`: returns
`(length, precision, typeval)` exactly as the source computes them. -/
def get_length_precision (e : ElemId) : Bool × Bool × Str :=
  let typeval : Str :=
    if elemTruthy e then
      if e ∈ lBucket then ['L']
      else if e ∈ dBucket then ['D']
      else if e ∈ pBucket then ['P']
      else [' ']
    else []
  let precision : Bool := typeval = ['P']
  let length : Bool := precision || typeval = ['L'] || typeval = ['D']
  (length, precision, typeval)

/-- Trigger flag bit for row-level triggers (`1 << 0`). -/
def TRIGGER_TYPE_ROW : Nat := 1 <<< 0

/-- Trigger flag bit for BEFORE triggers (`1 << 1`). -/
def TRIGGER_TYPE_BEFORE : Nat := 1 <<< 1

/-- Trigger flag bit for INSERT events (`1 << 2`). -/
def TRIGGER_TYPE_INSERT : Nat := 1 <<< 2

/-- Trigger flag bit for DELETE events (`1 << 3`). -/
def TRIGGER_TYPE_DELETE : Nat := 1 <<< 3

/-- Trigger flag bit for UPDATE events (`1 << 4`). -/
def TRIGGER_TYPE_UPDATE : Nat := 1 <<< 4

/-- Trigger flag bit for TRUNCATE events (`1 << 5`). -/
def TRIGGER_TYPE_TRUNCATE : Nat := 1 <<< 5

/-- Trigger flag bit for INSTEAD OF triggers (`1 << 6`). -/
def TRIGGER_TYPE_INSTEAD : Nat := 1 <<< 6

/-- The fields `trigger_definition` adds to the properties data. -/
structure TriggerData where
  fires : Str
  is_row_trigger : Bool
  evnt_insert : Bool
  evnt_delete : Bool
  evnt_update : Bool
  evnt_truncate : Bool
deriving DecidableEq

/-- Model of the module-level `trigger_definition` function: decodes the
packed `tgtype` integer into the named fields.  A bitwise-and result is
truthy in Python exactly when it is non-zero. -/
def trigger_definition (tgtype : Nat) : TriggerData where
  fires :=
    if tgtype &&& TRIGGER_TYPE_BEFORE ≠ 0 then strL "BEFORE"
    else if tgtype &&& TRIGGER_TYPE_INSTEAD ≠ 0 then strL "INSTEAD OF"
    else strL "AFTER"
  is_row_trigger := tgtype &&& TRIGGER_TYPE_ROW ≠ 0
  evnt_insert := tgtype &&& TRIGGER_TYPE_INSERT ≠ 0
  evnt_delete := tgtype &&& TRIGGER_TYPE_DELETE ≠ 0
  evnt_update := tgtype &&& TRIGGER_TYPE_UPDATE ≠ 0
  evnt_truncate := tgtype &&& TRIGGER_TYPE_TRUNCATE ≠ 0

/-- The names of the time/bit family that share the `(typmod)` verbatim
length branch of `get_full_type`. -/
def timeBitNames : List Str :=
  [strL "time", strL "timetz",
   strL "time without time zone", strL "time with time zone",
   strL "timestamp", strL "timestamptz",
   strL "timestamp without time zone", strL "timestamp with time zone",
   strL "bit", strL "bit varying", strL "varbit"]

/-- The `[]` suffix appended once per array dimension. -/
def arrRepeat : Nat → Str
  | 0 => []
  | n + 1 => arrRepeat n ++ ['[', ']']

/-- The `if typmod != -1` length/precision block of `get_full_type`: the
per-type modifier decoding, with the closing parenthesis appended only when
the computed suffix is non-empty (`date` clears it). -/
def gftLengthSuffix (name3 : Str) (typmod : Int) : Str :=
  if typmod ≠ -1 then
    let length0 : Str :=
      if name3 = strL "numeric" then
        '(' :: (intToChars (pyShr (typmod - 4) 16) ++ [','] ++
          intToChars (pyAndMask (typmod - 4) 16))
      else if name3 ∈ timeBitNames then
        '(' :: intToChars typmod
      else if name3 = strL "interval" then
        '(' :: intToChars (pyAndMask typmod 16)
      else if name3 = strL "date" then
        []
      else
        '(' :: intToChars (typmod - 4)
    if length0.length > 0 then length0 ++ [')'] else length0
  else []

/-- The final return dispatch of `get_full_type`: the `pg_catalog` quoted
`char` special case, the four time/timestamp with/without time zone forms
with the length suffix inserted before the qualifier, and the default
concatenation. -/
def gftRender (schema name3 lengthS array : Str) : Str :=
  if name3 = strL "char" && schema = strL "pg_catalog" then
    strL "\x22char\x22" ++ array
  else if name3 = strL "time with time zone" then
    strL "time" ++ lengthS ++ strL " with time zone" ++ array
  else if name3 = strL "time without time zone" then
    strL "time" ++ lengthS ++ strL " without time zone" ++ array
  else if name3 = strL "timestamp with time zone" then
    strL "timestamp" ++ lengthS ++ strL " with time zone" ++ array
  else if name3 = strL "timestamp without time zone" then
    strL "timestamp" ++ lengthS ++ strL " without time zone" ++ array
  else
    name3 ++ lengthS ++ array

/-- Model of `DataTypeReader.get_full_type`.  Returns `none` when the Python
code would raise an `IndexError` (the single-character indexing used for the
schema-prefix skip can run past the end of the string).  All other paths are
total.  Note that the source reads `typname[len(schema) + 3]` and
`typname[len(schema) + 1]` - single characters, not slices.  The body reuses
`gftLengthSuffix` for the length block and `gftRender` for the final return
dispatch, mirroring the two blocks of the source. -/
def get_full_type (nsp : Option Str) (typname : Str) ( _isDup : Bool)
    (numdims : Nat) (typmod : Int) : Option Str :=
  let schema := nsp.getD []
  let nameO : Option Str :=
    if pyFind typname (schema ++ ['"', '.']) ≥ 0 then
      (pyIndex typname (schema.length + 3)).map (fun c => [c])
    else if pyFind typname (schema ++ ['.']) ≥ 0 then
      (pyIndex typname (schema.length + 1)).map (fun c => [c])
    else
      some typname
  nameO.bind (fun name0 =>
    let numdims1 := if pyStarts name0 ['_'] && numdims = 0 then 1 else numdims
    let name1 := if pyStarts name0 ['_'] then name0.drop 1 else name0
    let numdims2 := if pyEnds name1 ['[', ']'] && numdims1 = 0 then 1 else numdims1
    let name2 := if pyEnds name1 ['[', ']'] then name1.take (name1.length - 2) else name1
    let name3 :=
      if pyStarts name2 ['"'] && pyEnds name2 ['"'] then pySlice name2 1 (-1) else name2
    some (gftRender schema name3 (gftLengthSuffix name3 typmod) (arrRepeat numdims2)))

/-- Helper for the regex substitution `sub(r'(\x28\d+\x29)', '', s)` used by
`parse_type_name`: if the scanned suffix starts (after an already-consumed
opening parenthesis) with one or more digits followed by a closing
parenthesis, return the remainder after that closing parenthesis. -/
def parenNum (s : Str) : Option Str :=
  let ds := s.takeWhile Char.isDigit
  if ds ≠ [] && (s.drop ds.length).take 1 = [')'] then
    some (s.drop (ds.length + 1))
  else none

/-- Fuel-indexed scanner removing every `(digits)` occurrence, left to right,
non-overlapping, as the regex substitution does. -/
def subParenDigitsAux : Nat → Str → Str
  | 0, s => s
  | _ + 1, [] => []
  | fuel + 1, c :: rest =>
    if c = '(' then
      match parenNum rest with
      | some rest2 => subParenDigitsAux fuel rest2
      | none => c :: subParenDigitsAux fuel rest
    else
      c :: subParenDigitsAux fuel rest

/-- Remove every `(digits)` group from a string. -/
def subParenDigits (s : Str) : Str := subParenDigitsAux s.length s

/-- Model of `DataTypeReader.parse_type_name`.  Notable source behaviours
kept verbatim: `rstrip` removes every trailing bracket character (so nested
array suffixes collapse), the `if idx` tests use Python integer truthiness
(`-1` is truthy, `0` falsy), and `type_name[:idx]` uses Python slice
semantics. -/
def parse_type_name (type_name : Str) : Str :=
  let is_array := pyEnds type_name ['[', ']']
  let tn0 := if is_array then pyRstrip type_name ['[', ']'] else type_name
  let idx := pyFind tn0 ['(']
  let tn1 :=
    if idx ≠ 0 && pyEnds tn0 [')'] then
      pySlice tn0 0 idx
    else if idx ≠ 0 && pyStarts tn0 (strL "time") then
      let end_idx := pyFind tn0 [')']
      if end_idx ≠ 1 then subParenDigits tn0 else tn0
    else tn0
  if is_array then tn1 ++ ['[', ']'] else tn1

/-- Character classes appearing in the rule-definition regular expressions. -/
inductive CC where
  | ws
  | dot
  | anyc
deriving DecidableEq

/-- Whether a character matches a class: `ws` is the regex whitespace class,
`dot` is `.` (anything but a newline), `anyc` is the alternation of `.` with
a newline (any character). -/
def ccMatch : CC → Char → Bool
  | .ws, c => c = ' ' || c = '\t' || c = '\n' || c = '\r' || c = '\x0b' || c = '\x0c'
  | .dot, c => c ≠ '\n'
  | .anyc, _ => true

/-- The fragment of regular expressions needed by `parse_rule_definition`:
literals, character classes, sequencing, greedy star, greedy option and one
capturing group. -/
inductive RE where
  | eps
  | lit (c : Char)
  | cls (k : CC)
  | seq (a b : RE)
  | star (a : RE)
  | opt (a : RE)
  | grp (a : RE)

/-- Backtracking matcher in continuation-passing style, reproducing the
greedy leftmost semantics of the Python regex engine on this fragment.  The
continuation receives the remaining input and the capture recorded so far;
returning `none` from a branch makes the matcher backtrack.  `fuel` only
bounds the recursion depth and is chosen large enough never to run out. -/
def mre : Nat → RE → Str → Option Str →
    (Str → Option Str → Option (Option Str)) → Option (Option Str)
  | 0, _, _, _, _ => none
  | fuel + 1, r, s, cap, k =>
    match r with
    | .eps => k s cap
    | .lit c =>
      match s with
      | [] => none
      | c2 :: rest => if c2 = c then k rest cap else none
    | .cls kc =>
      match s with
      | [] => none
      | c2 :: rest => if ccMatch kc c2 then k rest cap else none
    | .seq a b => mre fuel a s cap (fun s2 cap2 => mre fuel b s2 cap2 k)
    | .star a =>
      (mre fuel a s cap (fun s2 cap2 =>
        if s2.length < s.length then mre fuel (.star a) s2 cap2 k else none)).orElse
        (fun _ => k s cap)
    | .opt a => (mre fuel a s cap k).orElse (fun _ => k s cap)
    | .grp a =>
      mre fuel a s cap (fun s2 _ => k s2 (some (s.take (s.length - s2.length))))

/-- A sequence of literal characters. -/
def litStr : Str → RE
  | [] => .eps
  | c :: rest => .seq (.lit c) (litStr rest)

/-- Greedy `ws+` (one whitespace character followed by greedily many). -/
def wsPlus : RE := .seq (.cls .ws) (.star (.cls .ws))

/-- Try to match the pattern at the start of `s` (unanchored tail). -/
def reMatchAt (r : RE) (s : Str) : Option (Option Str) :=
  mre ((s.length + 2) * 64) r s none (fun _ cap => some cap)

/-- Leftmost search: try the pattern at each start position in turn. -/
def reSearchAux (r : RE) : Str → Option (Option Str)
  | [] => reMatchAt r []
  | c :: rest =>
    match reMatchAt r (c :: rest) with
    | some cap => some cap
    | none => reSearchAux r rest

/-- Model of `re.search(pattern, s)` followed by `.group(1)`: `none` when
there is no match, otherwise the text captured by the single group. -/
def searchGroup (r : RE) (s : Str) : Option Str :=
  match reSearchAux r s with
  | none => none
  | some cap => cap

/-- The event pattern of `parse_rule_definition`: literal `ON`, whitespace,
captured greedy dot-star, whitespace, literal `TO`. -/
def onToRE : RE :=
  .seq (litStr (strL "ON"))
    (.seq wsPlus
      (.seq (.grp (.star (.cls .dot)))
        (.seq wsPlus (litStr (strL "TO")))))

/-- The do-instead pattern: whitespace, captured literal `INSTEAD`,
whitespace. -/
def insteadRE : RE :=
  .seq wsPlus (.seq (.grp (litStr (strL "INSTEAD"))) wsPlus)

/-- The condition pattern: literal `WHERE`, whitespace, captured greedy
dot-star, whitespace, literal `DO`. -/
def whereDoRE : RE :=
  .seq (litStr (strL "WHERE"))
    (.seq wsPlus
      (.seq (.grp (.star (.cls .dot)))
        (.seq wsPlus (litStr (strL "DO")))))

/-- The statements pattern: literal `DO` plus whitespace, an optional
`INSTEAD` plus whitespace, then a captured greedy any-character star. -/
def doStmtRE : RE :=
  .seq (litStr (strL "DO"))
    (.seq wsPlus
      (.seq (.opt (.seq (litStr (strL "INSTEAD")) wsPlus))
        (.grp (.star (.cls .anyc)))))

/-- The fields `parse_rule_definition` adds to the first result row. -/
structure RuleFields where
  event : Str
  do_instead : Bool
  statements : Str
  condition : Str
deriving DecidableEq

instance {ε α : Type} [DecidableEq ε] [DecidableEq α] : DecidableEq (Except ε α)
  | .error a, .error b => decidable_of_iff (a = b) (by simp)
  | .error _, .ok _ => isFalse (by simp)
  | .ok _, .error _ => isFalse (by simp)
  | .ok a, .ok b => decidable_of_iff (a = b) (by simp)

/-- Model of the module-level `parse_rule_definition` function.  The input is
the list of result rows, each reduced to its `definition` column.  An empty
row list makes the Python code raise inside the `try` block, which is
converted to a server-error value carrying the exception message. -/
def parse_rule_definition (rows : List Str) : Except Str RuleFields :=
  match rows with
  | [] => .error (strL "list index out of range")
  | data_def :: _ =>
    let event := (searchGroup onToRE data_def).getD []
    let instead := (searchGroup insteadRE data_def).isSome
    let condition := (searchGroup whereDoRE data_def).getD []
    let statement := (searchGroup doStmtRE data_def).getD []
    .ok { event := pyCapitalize (pyLower event)
        , do_instead := instead
        , statements := statement
        , condition := condition }

/-- One row of the `get_types` query result: the columns the loop reads.
`elemoid` is `none` when the column is SQL NULL. -/
structure TypeRow where
  typname : Str
  elemoid : Option ElemId
  is_collatable : Bool
deriving DecidableEq

/-- Python truthiness of the `elemoid` column (`None`, `0` and `''` falsy). -/
def truthyElem : Option ElemId → Bool
  | none => false
  | some e => elemTruthy e

/-- One entry appended to the result list of `get_types`. -/
structure TypeEntry where
  label : Str
  value : Str
  typval : Str
  precision : Bool
  length : Bool
  min_val : Nat
  max_val : Nat
  is_collatable : Bool
deriving DecidableEq

/-- The message of the exception raised when the Python local `typeval` is
read before any loop iteration assigned it. -/
def unboundTypevalMsg : Str :=
  strL "local variable typeval referenced before assignment"

/-- The row loop of `get_types`.  The first argument is the current value of
the function-local `typeval` variable: `precision`, `length`, `min_val` and
`max_val` are re-initialised on every iteration, but `typeval` is only ever
assigned inside the `if row.elemoid` branch and otherwise keeps the value
left over from an earlier iteration; reading it while still unassigned
raises, which the enclosing `try` converts into an error result. -/
def getTypesRows : Option Str → List TypeRow → Except Str (List TypeEntry)
  | _, [] => .ok []
  | tvState, row :: rest =>
    let step : Bool × Bool × Option Str :=
      if truthyElem row.elemoid then
        match row.elemoid with
        | some e =>
          let r := get_length_precision e
          (r.1, r.2.1, some r.2.2)
        | none => (false, false, tvState)
      else (false, false, tvState)
    match step.2.2 with
    | none => .error unboundTypevalMsg
    | some tv =>
      let length := step.1
      let precision := step.2.1
      let min_val : Nat := if length then (if tv = ['D'] then 0 else 1) else 0
      let max_val : Nat :=
        if length then
          if precision then 1000
          else if min_val ≠ 0 then 2147483647
          else 10
        else 0
      match getTypesRows (some tv) rest with
      | .error e => .error e
      | .ok entries =>
        .ok ({ label := row.typname, value := row.typname, typval := tv
             , precision := precision, length := length
             , min_val := min_val, max_val := max_val
             , is_collatable := row.is_collatable } :: entries)

/-- The query-executor outcome seen by `get_types`: either the executor
reports failure with a message, or it returns rows. -/
inductive QueryRes where
  | qfail (msg : Str)
  | qok (rows : List TypeRow)

/-- Model of `DataTypeReader.get_types` with the connection abstracted into
the executor outcome.  Executor failure is returned unchanged; any exception
during row processing is caught and converted into `(false, message)`. -/
def get_types : QueryRes → Bool × (Str ⊕ List TypeEntry)
  | .qfail msg => (false, .inl msg)
  | .qok rows =>
    match getTypesRows none rows with
    | .error e => (false, .inl e)
    | .ok l => (true, .inr l)

/-- Values stored in live-settings mappings and result rows: `None`, a
string, or a number (Python floats and ints are modelled as rationals). -/
inductive PyV where
  | vnone
  | vstr (s : Str)
  | vnum (q : ℚ)
deriving DecidableEq

/-- Python truthiness of a settings value. -/
def pyTruthy : PyV → Bool
  | .vnone => false
  | .vstr s => s ≠ []
  | .vnum q => q ≠ 0

/-- Numeric value of a list of decimal digits. -/
def decDigitsVal (ds : Str) : Nat :=
  ds.foldl (fun a c => a * 10 + (c.toNat - 48)) 0

/-- The exact rational of a decimal literal with integer digits `ip`,
fraction digits `fp` and sign `neg` (built with `mkRat` so that concrete
values evaluate). -/
def decValue (neg : Bool) (ip fp : Str) : ℚ :=
  let n : Int := (decDigitsVal ip * 10 ^ fp.length + decDigitsVal fp : Nat)
  mkRat (if neg then -n else n) (10 ^ fp.length)

/-- Python `float(s)` on the decimal literals used here, as an exact
rational: optional sign, integer digits, optional fraction digits.  `none`
models the `ValueError` raised on any other string. -/
def pyFloatParse (s : Str) : Option ℚ :=
  let (neg, s1) : Bool × Str :=
    match s with
    | '-' :: rest => (true, rest)
    | _ => (false, s)
  let ip := s1.takeWhile Char.isDigit
  let rest1 := s1.drop ip.length
  match rest1 with
  | [] => if ip = [] then none else some (decValue neg ip [])
  | '.' :: fp =>
    if fp.all Char.isDigit && (ip ≠ [] || fp ≠ []) then
      some (decValue neg ip fp)
    else none
  | _ => none

/-- Python `int(s)`: optional sign and decimal digits only; a fractional
literal raises `ValueError` (`none`). -/
def pyIntParse (s : Str) : Option ℚ :=
  let (neg, s1) : Bool × Str :=
    match s with
    | '-' :: rest => (true, rest)
    | _ => (false, s)
  if s1 ≠ [] && s1.all Char.isDigit then
    some (decValue neg s1 [])
  else none

/-- The value coercion of `parse_vacuum_data`: `float(...)` when the column
type is `number`, `int(...)` otherwise. -/
def pyCoerce (ct : Str) (v : PyV) : Option ℚ :=
  match v with
  | .vstr s => if ct = strL "number" then pyFloatParse s else pyIntParse s
  | .vnum q => if ct = strL "number" then some q else some (mkRat (q.num.tdiv q.den) 1)
  | .vnone => none

/-- The `[displayName, label, columnType]` triples of one sub-mapping of the
`vacuum_fields.json` configuration resource, keyed by raw setting name. -/
abbrev VMap := List (Str × (Str × Str × Str))

/-- Dictionary lookup in an association list (Python `d[k]` succeeding). -/
def alookup {α : Type} (m : List (Str × α)) (k : Str) : Option α :=
  (m.find? (fun p => p.1 == k)).map (fun p => p.2)

/-- One row of the `vacuum_defaults.sql` query result. -/
structure VQRow where
  name : Str
  setting : PyV
deriving DecidableEq

/-- One output row of the vacuum-settings routines. -/
structure VOutRow where
  name : Str
  label : Str
  column_type : Str
  setting : PyV
  value : Option PyV
deriving DecidableEq

/-- Errors escaping the vacuum-settings routines: an executor failure wrapped
into the server-error response, an uncaught `KeyError`, or an uncaught
`ValueError` from a numeric coercion. -/
inductive VErr where
  | serverError (msg : Str)
  | keyError (key : Str)
  | valueError (key : Str)
deriving DecidableEq

/-- Query outcome for the vacuum routines. -/
inductive VQueryRes where
  | qfail (msg : Str)
  | qok (rows : List VQRow)

/-- The two `type` arguments accepted by `parse_vacuum_data`. -/
inductive VKind where
  | table
  | toast
deriving DecidableEq

/-- The `table` branch of the row loop of `parse_vacuum_data`: look the raw
name up in the sub-mapping (KeyError when absent), look the display name up
in the live-settings mapping (KeyError when absent), and when the live value
is not `None` coerce it per column type and store it in both `value` and
`setting`. -/
def vacuumRowTable (fields : VMap) (result : List (Str × PyV)) (row : VQRow) :
    Except VErr VOutRow :=
  match alookup fields row.name with
  | none => .error (.keyError row.name)
  | some (dn, lbl, ct) =>
    match alookup result dn with
    | none => .error (.keyError dn)
    | some v =>
      if v ≠ PyV.vnone then
        match pyCoerce ct v with
        | none => .error (.valueError dn)
        | some q => .ok ⟨dn, lbl, ct, .vnum q, some (.vnum q)⟩
      else .ok ⟨dn, lbl, ct, row.setting, none⟩

/-- The `toast` branch of the row loop of `parse_vacuum_data`: the lookup key
is prefixed with `toast_`, and the guard additionally requires the live value
to be truthy, so a present-but-falsy value is skipped. -/
def vacuumRowToast (fields : VMap) (result : List (Str × PyV)) (row : VQRow) :
    Except VErr VOutRow :=
  match alookup fields row.name with
  | none => .error (.keyError row.name)
  | some (dn, lbl, ct) =>
    let key := strL "toast_" ++ dn
    match alookup result key with
    | none => .error (.keyError key)
    | some v =>
      if pyTruthy v && v ≠ PyV.vnone then
        match pyCoerce ct v with
        | none => .error (.valueError key)
        | some q => .ok ⟨dn, lbl, ct, .vnum q, some (.vnum q)⟩
      else .ok ⟨dn, lbl, ct, row.setting, none⟩

/-- The sequential `for row in res['rows']` loop: the first exception aborts
the whole call, otherwise the processed rows are collected in order. -/
def vacuumLoop (f : VQRow → Except VErr VOutRow) : List VQRow → Except VErr (List VOutRow)
  | [] => .ok []
  | r :: rest =>
    match f r with
    | .error e => .error e
    | .ok out =>
      match vacuumLoop f rest with
      | .error e => .error e
      | .ok outs => .ok (out :: outs)

/-- Model of `VacuumSettings.parse_vacuum_data` with the configuration
resource and the executor outcome abstracted into parameters. -/
def parse_vacuum_data (fields : VKind → VMap) (result : List (Str × PyV))
    (q : VQueryRes) (kind : VKind) : Except VErr (List VOutRow) :=
  match q with
  | .qfail m => .error (.serverError m)
  | .qok rows =>
    match kind with
    | .table => vacuumLoop (vacuumRowTable (fields .table) result) rows
    | .toast => vacuumLoop (vacuumRowToast (fields .toast) result) rows

/-- Model of `VacuumSettings.get_vacuum_toast_settings`.  The source takes
`name` and `label` from the `toast` sub-mapping but reads `column_type` from
the `table` sub-mapping (`vacuum_fields['table'][row_name][2]`). -/
def get_vacuum_toast_settings (fieldsTable fieldsToast : VMap) (q : VQueryRes) :
    Except VErr (List VOutRow) :=
  match q with
  | .qfail m => .error (.serverError m)
  | .qok rows =>
    vacuumLoop (fun row =>
      match alookup fieldsToast row.name with
      | none => .error (.keyError row.name)
      | some (dn, lbl, _) =>
        match alookup fieldsTable row.name with
        | none => .error (.keyError row.name)
        | some (_, _, ctT) => .ok ⟨dn, lbl, ctT, row.setting, none⟩) rows

/-- The textual base names of the known type set: every non-array textual
name of the `get_length_precision` enumeration together with `date` and a
few representative plain types. -/
def knownTypeNames : List Str :=
  [strL "bit", strL "bit varying", strL "varbit",
   strL "bpchar", strL "character", strL "varchar", strL "character varying",
   strL "time", strL "time without time zone", strL "time with time zone",
   strL "timetz",
   strL "timestamp", strL "timestamp without time zone",
   strL "timestamp with time zone", strL "timestamptz",
   strL "interval", strL "numeric", strL "date",
   strL "text", strL "int4", strL "char"]

/-- Array-dimension counts under which the format/parse round trip holds. -/
def roundTripDims : List Nat := [0, 1]

/-- One format-then-parse round trip: `parse_type_name` applied to the
display string of `get_full_type` must give back the base name with the
array suffix. -/
def roundTripOk (schema name : Str) (dims : Nat) (m : Int) : Bool :=
  match get_full_type (some schema) name false dims m with
  | none => false
  | some disp => parse_type_name disp == name ++ arrRepeat dims

/-- Fixture: the sub-mapping rows used for the concrete vacuum example. -/
def savfMap : VMap :=
  [(strL "autovacuum_vacuum_scale_factor",
    (strL "autovacuum_vacuum_scale_factor", strL "Vacuum scale factor", strL "number"))]

/-- Fixture: live settings carrying `autovacuum_vacuum_scale_factor = "0.2"`. -/
def savfResult : List (Str × PyV) :=
  [(strL "autovacuum_vacuum_scale_factor", .vstr (strL "0.2"))]

/-- Fixture: live settings whose TOAST-prefixed override is present but
falsy (the empty string). -/
def savfToastResult : List (Str × PyV) :=
  [(strL "toast_autovacuum_vacuum_scale_factor", .vstr (strL ""))]

/-- Helper: a bitwise and with a single shifted-in bit is non-zero exactly
when that bit of the operand is set (Bool form, matching the coerced
`decide` in the trigger fields). -/
theorem land_bit_decide (n k : Nat) : decide (n &&& (1 <<< k) ≠ 0) = n.testBit k := by
  rw [Nat.shiftLeft_eq, one_mul, Nat.and_two_pow]
  cases h : n.testBit k <;> simp [pow_ne_zero]

/-- Helper: propositional form of `land_bit_decide`. -/
theorem land_bit_iff (n k : Nat) : (n &&& (1 <<< k) ≠ 0) ↔ n.testBit k = true := by
  rw [← land_bit_decide n k, decide_eq_true_eq]

/-- C2: for every packed trigger-flag input, `trigger_definition` resolves
`fires` to BEFORE when bit 1 is set, else to INSTEAD OF when bit 6 is set,
else to AFTER; `is_row_trigger` and the four event flags are exactly bits 0,
2, 3, 4 and 5; input 0 yields AFTER with all flags false; the function is
total, ignoring undefined bits. -/
theorem c2_trigger_decode (t : Nat) :
    ((trigger_definition t).fires = strL "BEFORE" ↔ t.testBit 1 = true) ∧
    ((trigger_definition t).fires = strL "INSTEAD OF" ↔
      (t.testBit 1 = false ∧ t.testBit 6 = true)) ∧
    ((trigger_definition t).fires = strL "AFTER" ↔
      (t.testBit 1 = false ∧ t.testBit 6 = false)) ∧
    (trigger_definition t).is_row_trigger = t.testBit 0 ∧
    (trigger_definition t).evnt_insert = t.testBit 2 ∧
    (trigger_definition t).evnt_delete = t.testBit 3 ∧
    (trigger_definition t).evnt_update = t.testBit 4 ∧
    (trigger_definition t).evnt_truncate = t.testBit 5 ∧
    trigger_definition 0 = ⟨strL "AFTER", false, false, false, false, false⟩ := by
  have e1 : (t &&& 1 <<< 1 ≠ 0) ↔ t.testBit 1 = true := land_bit_iff t 1
  have e6 : (t &&& 1 <<< 6 ≠ 0) ↔ t.testBit 6 = true := land_bit_iff t 6
  have hfires : (trigger_definition t).fires =
      (if t.testBit 1 = true then strL "BEFORE"
       else if t.testBit 6 = true then strL "INSTEAD OF" else strL "AFTER") := by
    simp only [trigger_definition, TRIGGER_TYPE_BEFORE, TRIGGER_TYPE_INSTEAD]
    by_cases hb : t.testBit 1 = true
    · rw [if_pos (e1.2 hb), if_pos hb]
    · have c1 : ¬ (t &&& 1 <<< 1 ≠ 0) := fun hc => hb (e1.1 hc)
      rw [if_neg c1, if_neg hb]
      by_cases hi : t.testBit 6 = true
      · rw [if_pos (e6.2 hi), if_pos hi]
      · have c6 : ¬ (t &&& 1 <<< 6 ≠ 0) := fun hc => hi (e6.1 hc)
        rw [if_neg c6, if_neg hi]
  refine ⟨?_, ?_, ?_, land_bit_decide t 0, land_bit_decide t 2,
    land_bit_decide t 3, land_bit_decide t 4, land_bit_decide t 5, by decide⟩ <;>
    rw [hfires] <;>
    rcases Bool.eq_false_or_eq_true (t.testBit 1) with hb | hb <;>
    rcases Bool.eq_false_or_eq_true (t.testBit 6) with hi | hi <;>
    simp [hb, hi] <;> decide

/-- C3 (counterexample): the unknown, non-empty identifier `foo` is outside
the fixed enumeration and `get_length_precision` returns `(false, false, ' ')`
for it - a single-space classification, not the empty string the claim
states. -/
theorem c3_unknown_space_counterexample :
    elemTruthy (.nm (strL "foo")) = true ∧
    (ElemId.nm (strL "foo")) ∉ lpEnumeration ∧
    get_length_precision (.nm (strL "foo")) ≠ (false, false, ([] : Str)) ∧
    get_length_precision (.nm (strL "foo")) = (false, false, [' ']) := by decide

/-- C3 (amended): `get_length_precision` is pure, and every truthy identifier
outside the fixed enumeration yields exactly `(false, false, ' ')` - the
space classification - rather than `(false, false, '')`. -/
theorem c3_unknown_blank (e : ElemId) (h1 : elemTruthy e = true)
    (h2 : e ∉ lpEnumeration) :
    get_length_precision e = (false, false, [' ']) ∧
    get_length_precision e = get_length_precision e := by
  refine ⟨?_, rfl⟩
  have h2l : e ∉ lBucket := fun hm => h2 (by simp [lpEnumeration, hm])
  have h2d : e ∉ dBucket := fun hm => h2 (by simp [lpEnumeration, hm])
  have h2p : e ∉ pBucket := fun hm => h2 (by simp [lpEnumeration, hm])
  simp [get_length_precision, h1, h2l, h2d, h2p]

/-- Witness for `c3_unknown_blank` at the concrete identifier `foo`. -/
theorem c3_unknown_blank_witness :
    get_length_precision (.nm (strL "foo")) = (false, false, [' ']) ∧
    get_length_precision (.nm (strL "foo")) = get_length_precision (.nm (strL "foo")) :=
  c3_unknown_blank (.nm (strL "foo")) (by decide) (by decide)

/-- Helper: every member of a verified prefix is a member of the list. -/
theorem isPrefixOf_mem_of_mem (p s : Str) (hp : p.isPrefixOf s = true) :
    ∀ c ∈ p, c ∈ s := by
  induction p generalizing s with
  | nil => intro c hc; cases hc
  | cons a p ih =>
    cases s with
    | nil => rw [List.isPrefixOf_cons_nil] at hp; cases hp
    | cons b s =>
      simp only [List.isPrefixOf, Bool.and_eq_true, beq_iff_eq] at hp
      intro c hc
      rcases List.mem_cons.mp hc with rfl | hc
      · exact List.mem_cons.mpr (.inl hp.1)
      · exact List.mem_cons.mpr (.inr (ih s hp.2 c hc))

/-- Helper: a needle containing a character absent from the haystack is never
found, so the Python find returns -1. -/
theorem pyFindFrom_eq_neg_one (needle s : Str) (c : Char) (hc : c ∈ needle)
    (hs : c ∉ s) : pyFindFrom needle s = -1 := by
  induction s with
  | nil =>
    have h0 : needle.isPrefixOf ([] : Str) = false := by
      cases needle with
      | nil => cases hc
      | cons a p => rfl
    simp [pyFindFrom, h0]
  | cons b t ih =>
    have h1 : needle.isPrefixOf (b :: t) = false := by
      cases hpre : needle.isPrefixOf (b :: t) with
      | false => rfl
      | true => exact absurd (isPrefixOf_mem_of_mem needle (b :: t) hpre c hc) hs
    have h2 : c ∉ t := fun hm => hs (List.mem_cons.mpr (.inr hm))
    simp [pyFindFrom, h1, ih h2]

/-- Helper: `pyFind` form of `pyFindFrom_eq_neg_one`. -/
theorem pyFind_eq_neg_one_of_not_mem (s needle : Str) (c : Char) (hc : c ∈ needle)
    (hs : c ∉ s) : pyFind s needle = -1 :=
  pyFindFrom_eq_neg_one needle s c hc hs

/-- Helper: searching for a single character absent from the leading block
finds its first explicit occurrence, at the block length. -/
theorem pyFindFrom_single_append (c0 : Char) (w r : Str) (hw : c0 ∉ w) :
    pyFindFrom [c0] (w ++ c0 :: r) = (w.length : Int) := by
  induction w with
  | nil =>
    have h0 : ([c0] : Str).isPrefixOf (c0 :: r) = true := by
      simp [List.isPrefixOf]
    simp [pyFindFrom, h0]
  | cons a w ih =>
    have hne : ¬ (c0 = a) := fun h => hw (List.mem_cons.mpr (.inl h))
    have ha : ([c0] : Str).isPrefixOf (a :: (w ++ c0 :: r)) = false := by
      simp [List.isPrefixOf, hne]
    have hw2 : c0 ∉ w := fun hm => hw (List.mem_cons.mpr (.inr hm))
    have hnn : ¬ ((w.length : Int) = -1) := by omega
    simp only [List.cons_append, List.append_eq, pyFindFrom, ha,
      Bool.false_eq_true, if_false, ih hw2]
    rw [if_neg hnn]
    simp only [List.length_cons]
    omega

/-- Helper: `pyFind` form of `pyFindFrom_single_append`. -/
theorem pyFind_single_append (c0 : Char) (w r : Str) (hw : c0 ∉ w) :
    pyFind (w ++ c0 :: r) [c0] = (w.length : Int) :=
  pyFindFrom_single_append c0 w r hw

/-- Helper: a prefix check only looks at the first `|p|` characters. -/
theorem isPrefixOf_append_of_le (p b a : Str) (h : p.length ≤ b.length) :
    p.isPrefixOf (b ++ a) = p.isPrefixOf b := by
  induction p generalizing b with
  | nil => simp
  | cons c p ih =>
    cases b with
    | nil => simp at h
    | cons d b =>
      simp only [List.cons_append, List.isPrefixOf, List.append_eq]
      rw [ih b (by simp only [List.length_cons] at h; omega)]

/-- Helper: a suffix check ignores everything before the last `|p|`
characters. -/
theorem pyEnds_append_ge (a b p : Str) (h : p.length ≤ b.length) :
    pyEnds (a ++ b) p = pyEnds b p := by
  simp only [pyEnds, List.isSuffixOf, List.reverse_append]
  exact isPrefixOf_append_of_le _ _ _ (by simpa using h)

/-- Helper: a prefix check ignores everything after the first `|p|`
characters. -/
theorem pyStarts_append_ge (w r p : Str) (h : p.length ≤ w.length) :
    pyStarts (w ++ r) p = pyStarts w p :=
  isPrefixOf_append_of_le p w r h

/-- Helper: every list is a prefix of itself. -/
theorem isPrefixOf_self (l : Str) : l.isPrefixOf l = true := by
  induction l with
  | nil => rfl
  | cons a l ih => simp [List.isPrefixOf, ih]

/-- Helper: a list always ends with its own suffix. -/
theorem pyEnds_append_self (s p : Str) : pyEnds (s ++ p) p = true := by
  rw [pyEnds_append_ge s p p (Nat.le_refl _)]
  simp only [pyEnds, List.isSuffixOf]
  exact isPrefixOf_self _

/-- Helper: a string whose last character differs from `c0` does not end
with `c0`. -/
theorem pyEnds_last_single (x : Str) (c0 c : Char) (h : ¬ c0 = c) :
    pyEnds (x ++ [c]) [c0] = false := by
  simp [pyEnds, List.isSuffixOf, List.reverse_append, List.isPrefixOf, h]

/-- Helper: a string whose last character is not `]` does not end with the
array marker. -/
theorem pyEnds_last_brackets (x : Str) (c : Char) (h : ¬ (']' : Char) = c) :
    pyEnds (x ++ [c]) ['[', ']'] = false := by
  simp [pyEnds, List.isSuffixOf, List.reverse_append, List.isPrefixOf, h]

/-- Helper: stripping trailing brackets removes an appended bracket pair. -/
theorem pyRstrip_append_brackets (s : Str) :
    pyRstrip (s ++ ['[', ']']) ['[', ']'] = pyRstrip s ['[', ']'] := by
  simp [pyRstrip, List.reverse_append, List.dropWhile]

/-- Helper: a string whose last character is not a bracket is unchanged by
the bracket strip. -/
theorem pyRstrip_append_last (s : Str) (c : Char)
    (h1 : ¬ c = '[') (h2 : ¬ c = ']') :
    pyRstrip (s ++ [c]) ['[', ']'] = s ++ [c] := by
  simp [pyRstrip, List.reverse_append, List.dropWhile, h1, h2]

/-- Helper: a slice from 0 to a valid bound is a take. -/
theorem pySlice_zero_take (s : Str) (k : Nat) (hk : k ≤ s.length) :
    pySlice s 0 (k : Int) = s.take k := by
  have h0 : ¬ ((k : Int) < 0) := by omega
  simp [pySlice, pyNormIdx, h0, Nat.min_eq_left hk]

/-- Helper: `parse_type_name` on a base name followed by a parenthesised
suffix cuts at the first parenthesis and returns the base name; the suffix
contents are irrelevant. -/
theorem parse_paren_cut (name inner : Str) (hn : name ≠ []) (hp : '(' ∉ name) :
    parse_type_name (name ++ '(' :: inner ++ [')']) = name := by
  have hr1 : name ++ '(' :: inner ++ [')'] = (name ++ '(' :: inner) ++ [')'] := by
    simp
  have hr2 : name ++ '(' :: inner ++ [')'] = name ++ '(' :: (inner ++ [')']) := by
    simp
  have harr : pyEnds (name ++ '(' :: inner ++ [')']) ['[', ']'] = false := by
    rw [hr1]; exact pyEnds_last_brackets _ _ (by decide)
  have hidx : pyFind (name ++ '(' :: inner ++ [')']) ['('] = (name.length : Int) := by
    rw [hr2]; exact pyFind_single_append '(' name (inner ++ [')']) hp
  have hend : pyEnds (name ++ '(' :: inner ++ [')']) [')'] = true := by
    rw [hr1]; exact pyEnds_append_self _ _
  have hlen0 : ¬ ((name.length : Int) = 0) := by
    have h1 : name.length ≠ 0 := fun h => hn (List.length_eq_zero.mp h)
    omega
  have hslice : pySlice (name ++ '(' :: inner ++ [')']) 0 (name.length : Int)
      = name := by
    rw [pySlice_zero_take _ _ (by simp), hr2]
    exact List.take_left' rfl
  simp only [parse_type_name, harr, Bool.false_eq_true, if_false, hidx, hend,
    hslice, hlen0, decide_not, eq_self_iff_true, if_true, ne_eq, not_false_iff]
  simp

/-- Helper: array version of `parse_paren_cut`: the appended `[]` is stripped
and re-appended around the same cut. -/
theorem parse_paren_cut_array (name inner : Str) (hn : name ≠ []) (hp : '(' ∉ name) :
    parse_type_name ((name ++ '(' :: inner ++ [')']) ++ ['[', ']']) =
      name ++ ['[', ']'] := by
  have hr1 : name ++ '(' :: inner ++ [')'] = (name ++ '(' :: inner) ++ [')'] := by
    simp
  have hr2 : name ++ '(' :: inner ++ [')'] = name ++ '(' :: (inner ++ [')']) := by
    simp
  have harr : pyEnds ((name ++ '(' :: inner ++ [')']) ++ ['[', ']'])
      ['[', ']'] = true := pyEnds_append_self _ _
  have hstrip : pyRstrip ((name ++ '(' :: inner ++ [')']) ++ ['[', ']'])
      ['[', ']'] = name ++ '(' :: inner ++ [')'] := by
    rw [pyRstrip_append_brackets, hr1,
      pyRstrip_append_last _ _ (by decide) (by decide)]
  have hidx : pyFind (name ++ '(' :: inner ++ [')']) ['('] = (name.length : Int) := by
    rw [hr2]; exact pyFind_single_append '(' name (inner ++ [')']) hp
  have hend : pyEnds (name ++ '(' :: inner ++ [')']) [')'] = true := by
    rw [hr1]; exact pyEnds_append_self _ _
  have hlen0 : ¬ ((name.length : Int) = 0) := by
    have h1 : name.length ≠ 0 := fun h => hn (List.length_eq_zero.mp h)
    omega
  have hslice : pySlice (name ++ '(' :: inner ++ [')']) 0 (name.length : Int)
      = name := by
    rw [pySlice_zero_take _ _ (by simp), hr2]
    exact List.take_left' rfl
  simp only [parse_type_name, harr, hstrip, hidx, hend, hslice, hlen0,
    decide_not, eq_self_iff_true, if_true, ne_eq, not_false_iff]
  simp

/-- Helper: the digit run of a digits-then-parenthesis block is exactly the
digits. -/
theorem takeWhile_digits (ds q : Str) (hdsd : ∀ ch ∈ ds, ch.isDigit = true) :
    (ds ++ ')' :: q).takeWhile Char.isDigit = ds := by
  induction ds with
  | nil =>
    have h0 : (')' : Char).isDigit = false := by decide
    simp [List.takeWhile, h0]
  | cons d ds ih =>
    have hd : d.isDigit = true := hdsd d (List.mem_cons_self d ds)
    simp [List.takeWhile, hd,
      ih (fun ch hc => hdsd ch (List.mem_cons.mpr (.inr hc)))]

/-- Helper: `parenNum` consumes a non-empty digit run and its closing
parenthesis, returning the rest. -/
theorem parenNum_digits (ds q : Str) (hds : ds ≠ [])
    (hdsd : ∀ ch ∈ ds, ch.isDigit = true) :
    parenNum (ds ++ ')' :: q) = some q := by
  have ht := takeWhile_digits ds q hdsd
  have hd1 : (ds ++ ')' :: q).drop ds.length = ')' :: q := List.drop_left _ _
  have hd2 : (ds ++ ')' :: q).drop (ds.length + 1) = q := by
    have hsplit : ds ++ ')' :: q = (ds ++ [')']) ++ q := by simp
    have hlen : (ds ++ [')']).length = ds.length + 1 := by simp
    rw [hsplit, ← hlen]
    exact List.drop_left _ _
  simp [parenNum, ht, hd1, hd2, hds]

/-- Helper: the parenthesised-digit substitution leaves a string without an
opening parenthesis unchanged, whatever the fuel. -/
theorem subParenDigitsAux_no_paren (f : Nat) (q : Str) (hq : '(' ∉ q) :
    subParenDigitsAux f q = q := by
  induction f generalizing q with
  | zero => rfl
  | succ f ih =>
    cases q with
    | nil => rfl
    | cons c rest =>
      have hc : ¬ c = '(' := fun h => hq (List.mem_cons.mpr (.inl h.symm))
      simp [subParenDigitsAux, hc,
        ih rest (fun hm => hq (List.mem_cons.mpr (.inr hm)))]

/-- Helper: with enough fuel, the substitution removes a single
parenthesised digit group. -/
theorem subParenDigitsAux_removes (w ds q : Str) (hwp : '(' ∉ w) (hds : ds ≠ [])
    (hdsd : ∀ ch ∈ ds, ch.isDigit = true) (hqp : '(' ∉ q) :
    ∀ fuel, w.length + 1 ≤ fuel →
      subParenDigitsAux fuel (w ++ '(' :: ds ++ ')' :: q) = w ++ q := by
  induction w with
  | nil =>
    intro fuel hf
    obtain ⟨f, rfl⟩ : ∃ f, fuel = f + 1 := ⟨fuel - 1, by omega⟩
    have hshape : ([] : Str) ++ '(' :: ds ++ ')' :: q = '(' :: (ds ++ ')' :: q) := by
      simp
    rw [hshape]
    simp [subParenDigitsAux, parenNum_digits ds q hds hdsd,
      subParenDigitsAux_no_paren f q hqp]
  | cons a w ih =>
    intro fuel hf
    obtain ⟨f, rfl⟩ : ∃ f, fuel = f + 1 := ⟨fuel - 1, by omega⟩
    have ha : ¬ a = '(' := fun h => hwp (List.mem_cons.mpr (.inl h.symm))
    have hw2 : '(' ∉ w := fun hm => hwp (List.mem_cons.mpr (.inr hm))
    have hshape : (a :: w) ++ '(' :: ds ++ ')' :: q =
        a :: (w ++ '(' :: ds ++ ')' :: q) := by simp
    rw [hshape]
    simp only [subParenDigitsAux, if_neg ha,
      ih hw2 f (by simp only [List.length_cons] at hf; omega)]
    simp

/-- Helper: top-level form of `subParenDigitsAux_removes`. -/
theorem subParenDigits_removes (w ds q : Str) (hwp : '(' ∉ w) (hds : ds ≠ [])
    (hdsd : ∀ ch ∈ ds, ch.isDigit = true) (hqp : '(' ∉ q) :
    subParenDigits (w ++ '(' :: ds ++ ')' :: q) = w ++ q := by
  apply subParenDigitsAux_removes w ds q hwp hds hdsd hqp
  simp [List.length_append]

/-- Helper: `parse_type_name` on a time-family display string with the
precision digits before the qualifier phrase removes exactly the
parenthesised digits. -/
theorem parse_time_sub (w ds q : Str) (c : Char)
    (hw : pyStarts w (strL "time") = true) (hwlen : 4 ≤ w.length)
    (hwp : '(' ∉ w) (hwc : ')' ∉ w)
    (hds : ds ≠ []) (hdsd : ∀ ch ∈ ds, ch.isDigit = true)
    (hqp : '(' ∉ q ++ [c]) (hc1 : ¬ (']' : Char) = c) (hc2 : ¬ (')' : Char) = c) :
    parse_type_name (w ++ '(' :: ds ++ ')' :: (q ++ [c])) = w ++ (q ++ [c]) := by
  have hr1 : w ++ '(' :: ds ++ ')' :: (q ++ [c]) =
      (w ++ '(' :: ds ++ ')' :: q) ++ [c] := by simp
  have hr2 : w ++ '(' :: ds ++ ')' :: (q ++ [c]) =
      w ++ '(' :: (ds ++ ')' :: (q ++ [c])) := by simp
  have hr3 : w ++ '(' :: ds ++ ')' :: (q ++ [c]) =
      (w ++ '(' :: ds) ++ ')' :: (q ++ [c]) := by simp
  have harr : pyEnds (w ++ '(' :: ds ++ ')' :: (q ++ [c])) ['[', ']'] = false := by
    rw [hr1]; exact pyEnds_last_brackets _ _ hc1
  have hidx : pyFind (w ++ '(' :: ds ++ ')' :: (q ++ [c])) ['('] =
      (w.length : Int) := by
    rw [hr2]; exact pyFind_single_append '(' w (ds ++ ')' :: (q ++ [c])) hwp
  have hlen0 : ¬ ((w.length : Int) = 0) := by omega
  have hend : pyEnds (w ++ '(' :: ds ++ ')' :: (q ++ [c])) [')'] = false := by
    rw [hr1]; exact pyEnds_last_single _ _ _ hc2
  have hstart : pyStarts (w ++ '(' :: ds ++ ')' :: (q ++ [c])) (strL "time")
      = true := by
    rw [hr2, pyStarts_append_ge _ _ _ (by simpa [strL] using hwlen)]
    exact hw
  have hpds : ')' ∉ w ++ '(' :: ds := by
    intro hm
    rcases List.mem_append.mp hm with hm | hm
    · exact hwc hm
    · rcases List.mem_cons.mp hm with h | hm
      · exact absurd h (by decide)
      · have hdig := hdsd ')' hm
        simp at hdig
  have hendidx : pyFind (w ++ '(' :: ds ++ ')' :: (q ++ [c])) [')'] =
      (((w ++ '(' :: ds).length : Nat) : Int) := by
    rw [hr3]; exact pyFind_single_append ')' (w ++ '(' :: ds) (q ++ [c]) hpds
  have hne1 : ¬ ((((w ++ '(' :: ds).length : Nat) : Int) = 1) := by
    simp only [List.length_append, List.length_cons]
    omega
  have hsub : subParenDigits (w ++ '(' :: ds ++ ')' :: (q ++ [c])) =
      w ++ (q ++ [c]) := subParenDigits_removes w ds (q ++ [c]) hwp hds hdsd hqp
  simp only [parse_type_name, harr, Bool.false_eq_true, if_false, hidx, hend,
    hstart, hendidx, hne1, hsub, hlen0, decide_not, eq_self_iff_true, if_true,
    ne_eq, not_false_iff]
  simp

/-- Helper: array version of `parse_time_sub`. -/
theorem parse_time_sub_array (w ds q : Str) (c : Char)
    (hw : pyStarts w (strL "time") = true) (hwlen : 4 ≤ w.length)
    (hwp : '(' ∉ w) (hwc : ')' ∉ w)
    (hds : ds ≠ []) (hdsd : ∀ ch ∈ ds, ch.isDigit = true)
    (hqp : '(' ∉ q ++ [c]) (hc1 : ¬ (']' : Char) = c) (hc2 : ¬ (')' : Char) = c)
    (hc3 : ¬ ('[' : Char) = c) :
    parse_type_name ((w ++ '(' :: ds ++ ')' :: (q ++ [c])) ++ ['[', ']']) =
      (w ++ (q ++ [c])) ++ ['[', ']'] := by
  have hr1 : w ++ '(' :: ds ++ ')' :: (q ++ [c]) =
      (w ++ '(' :: ds ++ ')' :: q) ++ [c] := by simp
  have hr2 : w ++ '(' :: ds ++ ')' :: (q ++ [c]) =
      w ++ '(' :: (ds ++ ')' :: (q ++ [c])) := by simp
  have hr3 : w ++ '(' :: ds ++ ')' :: (q ++ [c]) =
      (w ++ '(' :: ds) ++ ')' :: (q ++ [c]) := by simp
  have harr : pyEnds ((w ++ '(' :: ds ++ ')' :: (q ++ [c])) ++ ['[', ']'])
      ['[', ']'] = true := pyEnds_append_self _ _
  have hstrip : pyRstrip ((w ++ '(' :: ds ++ ')' :: (q ++ [c])) ++ ['[', ']'])
      ['[', ']'] = w ++ '(' :: ds ++ ')' :: (q ++ [c]) := by
    rw [pyRstrip_append_brackets, hr1,
      pyRstrip_append_last _ _ (fun h => hc3 h.symm) (fun h => hc1 h.symm)]
  have hidx : pyFind (w ++ '(' :: ds ++ ')' :: (q ++ [c])) ['('] =
      (w.length : Int) := by
    rw [hr2]; exact pyFind_single_append '(' w (ds ++ ')' :: (q ++ [c])) hwp
  have hlen0 : ¬ ((w.length : Int) = 0) := by omega
  have hend : pyEnds (w ++ '(' :: ds ++ ')' :: (q ++ [c])) [')'] = false := by
    rw [hr1]; exact pyEnds_last_single _ _ _ hc2
  have hstart : pyStarts (w ++ '(' :: ds ++ ')' :: (q ++ [c])) (strL "time")
      = true := by
    rw [hr2, pyStarts_append_ge _ _ _ (by simpa [strL] using hwlen)]
    exact hw
  have hpds : ')' ∉ w ++ '(' :: ds := by
    intro hm
    rcases List.mem_append.mp hm with hm | hm
    · exact hwc hm
    · rcases List.mem_cons.mp hm with h | hm
      · exact absurd h (by decide)
      · have hdig := hdsd ')' hm
        simp at hdig
  have hendidx : pyFind (w ++ '(' :: ds ++ ')' :: (q ++ [c])) [')'] =
      (((w ++ '(' :: ds).length : Nat) : Int) := by
    rw [hr3]; exact pyFind_single_append ')' (w ++ '(' :: ds) (q ++ [c]) hpds
  have hne1 : ¬ ((((w ++ '(' :: ds).length : Nat) : Int) = 1) := by
    simp only [List.length_append, List.length_cons]
    omega
  have hsub : subParenDigits (w ++ '(' :: ds ++ ')' :: (q ++ [c])) =
      w ++ (q ++ [c]) := subParenDigits_removes w ds (q ++ [c]) hwp hds hdsd hqp
  simp only [parse_type_name, harr, hstrip, hidx, hend, hstart, hendidx, hne1,
    hsub, hlen0, decide_not, eq_self_iff_true, if_true, ne_eq, not_false_iff]
  simp

/-- Helper: `Nat.digitChar` of a value below ten is a decimal digit. -/
theorem digitChar_isDigit (k : Nat) (hk : k < 10) :
    (Nat.digitChar k).isDigit = true := by
  interval_cases k <;> decide

/-- Helper: `Nat.toDigitsCore` in base ten only ever emits decimal digits on
top of an all-digit accumulator. -/
theorem toDigitsCore_digits (f : Nat) :
    ∀ (n : Nat) (ds : Str), (∀ ch ∈ ds, ch.isDigit = true) →
      ∀ ch ∈ Nat.toDigitsCore 10 f n ds, ch.isDigit = true := by
  induction f with
  | zero => intro n ds hds; simpa [Nat.toDigitsCore] using hds
  | succ f ih =>
    intro n ds hds
    have hcons : ∀ ch ∈ Nat.digitChar (n % 10) :: ds, ch.isDigit = true := by
      intro ch hc
      rcases List.mem_cons.mp hc with rfl | hc
      · exact digitChar_isDigit _ (Nat.mod_lt _ (by omega))
      · exact hds ch hc
    simp only [Nat.toDigitsCore]
    split
    · exact hcons
    · exact ih _ _ hcons

/-- Helper: `Nat.toDigitsCore` never returns the empty list when started on
a non-empty accumulator. -/
theorem toDigitsCore_ne_nil (f : Nat) :
    ∀ (n : Nat) (ds : Str), ds ≠ [] → Nat.toDigitsCore 10 f n ds ≠ [] := by
  induction f with
  | zero => intro n ds hds; simpa [Nat.toDigitsCore] using hds
  | succ f ih =>
    intro n ds hds
    simp only [Nat.toDigitsCore]
    split
    · simp
    · exact ih _ _ (by simp)

/-- Helper: the decimal rendering of a non-negative integer is a non-empty
all-digit string. -/
theorem intToChars_digits (m : Int) (hm : 0 ≤ m) :
    intToChars m ≠ [] ∧ ∀ ch ∈ intToChars m, ch.isDigit = true := by
  have hneg : ¬ (m < 0) := by omega
  simp only [intToChars, if_neg hneg, natToChars, Nat.toDigits]
  constructor
  · simp only [Nat.toDigitsCore]
    split
    · simp
    · exact toDigitsCore_ne_nil _ _ _ (by simp)
  · exact toDigitsCore_digits _ _ _ (by simp)

/-- Helper: for a type name that contains no schema-qualified prefix, no
array marker, and no surrounding quotes, `get_full_type` reduces to the
final render of the name with its computed length suffix and array suffix. -/
theorem gft_plain (schema name : Str) (dims : Nat) (m : Int)
    (hf1 : pyFind name (schema ++ ['"', '.']) = -1)
    (hf2 : pyFind name (schema ++ ['.']) = -1)
    (hu : pyStarts name ['_'] = false)
    (hb : pyEnds name ['[', ']'] = false)
    (hq : (pyStarts name ['"'] && pyEnds name ['"']) = false) :
    get_full_type (some schema) name false dims m =
      some (gftRender schema name (gftLengthSuffix name m) (arrRepeat dims)) := by
  have hq2 : ¬ (pyStarts name ['"'] = true ∧ pyEnds name ['"'] = true) := by
    intro hc
    rw [hc.1, hc.2] at hq
    simp at hq
  simp [get_full_type, hf1, hf2, hu, hb, hq2]

/-- Helper: round trip for a type whose display string is the bare name with
its array suffix (the length suffix is empty). -/
theorem rt_nosuffix (schema name : Str) (dims : Nat) (m : Int)
    (hgft : get_full_type (some schema) name false dims m =
      some (gftRender schema name (gftLengthSuffix name m) (arrRepeat dims)))
    (hrender : gftRender schema name (gftLengthSuffix name m) (arrRepeat dims) =
      name ++ arrRepeat dims)
    (hparse : parse_type_name (name ++ arrRepeat dims) = name ++ arrRepeat dims) :
    roundTripOk schema name dims m = true := by
  simp only [roundTripOk, hgft, hrender, hparse]
  exact beq_self_eq_true _

/-- Helper: round trip for a type rendered as the name, a parenthesised
length suffix and the array suffix. -/
theorem rt_paren (schema name inner : Str) (dims : Nat) (m : Int)
    (hgft : get_full_type (some schema) name false dims m =
      some (gftRender schema name (gftLengthSuffix name m) (arrRepeat dims)))
    (hrender : gftRender schema name (gftLengthSuffix name m) (arrRepeat dims) =
      (name ++ '(' :: inner ++ [')']) ++ arrRepeat dims)
    (hdims : dims = 0 ∨ dims = 1) (hn : name ≠ []) (hp : '(' ∉ name) :
    roundTripOk schema name dims m = true := by
  rcases hdims with rfl | rfl
  · simp only [roundTripOk, hgft, hrender]
    rw [show arrRepeat 0 = [] from rfl]
    simp only [List.append_nil]
    rw [parse_paren_cut name inner hn hp]
    exact beq_self_eq_true _
  · simp only [roundTripOk, hgft, hrender]
    rw [show arrRepeat 1 = ['[', ']'] from rfl]
    rw [parse_paren_cut_array name inner hn hp]
    exact beq_self_eq_true _

/-- Helper: round trip for the time/timestamp with/without time zone forms,
whose precision digits sit before the qualifier phrase. -/
theorem rt_zone (schema name w q : Str) (c : Char) (dims : Nat) (m : Int)
    (hm : 0 ≤ m)
    (hgft : get_full_type (some schema) name false dims m =
      some (gftRender schema name (gftLengthSuffix name m) (arrRepeat dims)))
    (hrender : gftRender schema name (gftLengthSuffix name m) (arrRepeat dims) =
      (w ++ '(' :: intToChars m ++ ')' :: (q ++ [c])) ++ arrRepeat dims)
    (hname : name = w ++ (q ++ [c]))
    (hdims : dims = 0 ∨ dims = 1)
    (hw : pyStarts w (strL "time") = true) (hwlen : 4 ≤ w.length)
    (hwp : '(' ∉ w) (hwc : ')' ∉ w)
    (hqp : '(' ∉ q ++ [c]) (hc1 : ¬ (']' : Char) = c) (hc2 : ¬ (')' : Char) = c)
    (hc3 : ¬ ('[' : Char) = c) :
    roundTripOk schema name dims m = true := by
  obtain ⟨hds, hdsd⟩ := intToChars_digits m hm
  rcases hdims with rfl | rfl
  · simp only [roundTripOk, hgft, hrender]
    rw [show arrRepeat 0 = [] from rfl]
    simp only [List.append_nil]
    rw [parse_time_sub w (intToChars m) q c hw hwlen hwp hwc hds hdsd hqp hc1 hc2,
      ← hname]
    exact beq_self_eq_true _
  · simp only [roundTripOk, hgft, hrender]
    rw [show arrRepeat 1 = ['[', ']'] from rfl]
    rw [parse_time_sub_array w (intToChars m) q c hw hwlen hwp hwc hds hdsd hqp
        hc1 hc2 hc3, ← hname]
    exact beq_self_eq_true _

/-- C1 (counterexample): the round trip fails on the known type set as soon
as the array dimension exceeds one - `numeric` with two dimensions formats
to `numeric(10,4)[][]` but parses back to `numeric[]` because `rstrip`
removes every trailing bracket - and on the `pg_catalog` quoted `char`
special case, which parses back to `"char"` rather than the base name
`char`. -/
theorem c1_round_trip_counterexample :
    get_full_type (some (strL "public")) (strL "numeric") false 2 655368 =
      some (strL "numeric(10,4)[][]") ∧
    parse_type_name (strL "numeric(10,4)[][]") = strL "numeric[]" ∧
    strL "numeric[]" ≠ strL "numeric" ++ arrRepeat 2 ∧
    get_full_type (some (strL "pg_catalog")) (strL "char") false 0 (-1) =
      some (strL "\x22char\x22") ∧
    parse_type_name (strL "\x22char\x22") = strL "\x22char\x22" ∧
    strL "\x22char\x22" ≠ strL "char" := by decide

set_option maxHeartbeats 3200000 in
/-- C1 (amended): for every schema, every base name of the known type set,
at most one array dimension and every type modifier that is -1 or
non-negative, excluding the `pg_catalog` quoted `char` special case,
`parse_type_name` applied to the `get_full_type` display string yields the
original base name with the array suffix preserved and the length/precision
suffix removed (including the time/timestamp with/without time zone forms
whose precision digits sit before the qualifier phrase). -/
theorem c1_round_trip_known_set (m : Int) (hm : m = -1 ∨ 0 ≤ m) :
    ∀ (schema : Str), ∀ name ∈ knownTypeNames, ∀ dims ∈ roundTripDims,
      ¬(schema = strL "pg_catalog" ∧ name = strL "char") →
      roundTripOk schema name dims m = true := by
  intro schema name hn dims hd hex
  simp only [knownTypeNames] at hn
  simp only [roundTripDims] at hd
  rcases hm with rfl | hm
  · fin_cases hn <;> fin_cases hd <;>
      exact rt_nosuffix _ _ _ (-1)
        (gft_plain _ _ _ (-1)
          (pyFind_eq_neg_one_of_not_mem _ _ '"' (by simp) (by decide))
          (pyFind_eq_neg_one_of_not_mem _ _ '.' (by simp) (by decide))
          (by decide) (by decide) (by decide))
        (by simp [gftRender, gftLengthSuffix, arrRepeat, hex, strL] <;>
          exact fun h => hex ⟨h, rfl⟩)
        (by decide)
  · have hm1 : m ≠ -1 := by omega
    fin_cases hn <;> fin_cases hd <;>
      first
        | (refine rt_paren _ _ (intToChars m) _ m
              (gft_plain _ _ _ m
                (pyFind_eq_neg_one_of_not_mem _ _ '"' (by simp) (by decide))
                (pyFind_eq_neg_one_of_not_mem _ _ '.' (by simp) (by decide))
                (by decide) (by decide) (by decide))
              ?_ (by decide) (by decide) (by decide)
           simp [gftRender, gftLengthSuffix, timeBitNames, arrRepeat, hm1, hex,
             strL] <;> exact fun h => hex ⟨h, rfl⟩)
        | (refine rt_paren _ _ (intToChars (m - 4)) _ m
              (gft_plain _ _ _ m
                (pyFind_eq_neg_one_of_not_mem _ _ '"' (by simp) (by decide))
                (pyFind_eq_neg_one_of_not_mem _ _ '.' (by simp) (by decide))
                (by decide) (by decide) (by decide))
              ?_ (by decide) (by decide) (by decide)
           simp [gftRender, gftLengthSuffix, timeBitNames, arrRepeat, hm1, hex,
             strL] <;> exact fun h => hex ⟨h, rfl⟩)
        | (refine rt_paren _ _
              (intToChars (pyShr (m - 4) 16) ++ ',' :: intToChars (pyAndMask (m - 4) 16))
              _ m
              (gft_plain _ _ _ m
                (pyFind_eq_neg_one_of_not_mem _ _ '"' (by simp) (by decide))
                (pyFind_eq_neg_one_of_not_mem _ _ '.' (by simp) (by decide))
                (by decide) (by decide) (by decide))
              ?_ (by decide) (by decide) (by decide)
           simp [gftRender, gftLengthSuffix, timeBitNames, arrRepeat, hm1, hex,
             strL] <;> exact fun h => hex ⟨h, rfl⟩)
        | (refine rt_paren _ _ (intToChars (pyAndMask m 16)) _ m
              (gft_plain _ _ _ m
                (pyFind_eq_neg_one_of_not_mem _ _ '"' (by simp) (by decide))
                (pyFind_eq_neg_one_of_not_mem _ _ '.' (by simp) (by decide))
                (by decide) (by decide) (by decide))
              ?_ (by decide) (by decide) (by decide)
           simp [gftRender, gftLengthSuffix, timeBitNames, arrRepeat, hm1, hex,
             strL] <;> exact fun h => hex ⟨h, rfl⟩)
        | (refine rt_nosuffix _ _ _ m
              (gft_plain _ _ _ m
                (pyFind_eq_neg_one_of_not_mem _ _ '"' (by simp) (by decide))
                (pyFind_eq_neg_one_of_not_mem _ _ '.' (by simp) (by decide))
                (by decide) (by decide) (by decide))
              ?_ (by decide)
           simp [gftRender, gftLengthSuffix, timeBitNames, arrRepeat, hm1, hex,
             strL] <;> exact fun h => hex ⟨h, rfl⟩)
        | (refine rt_zone _ _ (strL "time") (strL " without time zon") 'e' _ m hm
              (gft_plain _ _ _ m
                (pyFind_eq_neg_one_of_not_mem _ _ '"' (by simp) (by decide))
                (pyFind_eq_neg_one_of_not_mem _ _ '.' (by simp) (by decide))
                (by decide) (by decide) (by decide))
              ?_ ?_ (by decide) (by decide) (by decide) (by decide) (by decide)
              (by decide) (by decide) (by decide) (by decide)
           · simp [gftRender, gftLengthSuffix, timeBitNames, arrRepeat, hm1, hex,
               strL] <;> exact fun h => hex ⟨h, rfl⟩
           · decide)
        | (refine rt_zone _ _ (strL "time") (strL " with time zon") 'e' _ m hm
              (gft_plain _ _ _ m
                (pyFind_eq_neg_one_of_not_mem _ _ '"' (by simp) (by decide))
                (pyFind_eq_neg_one_of_not_mem _ _ '.' (by simp) (by decide))
                (by decide) (by decide) (by decide))
              ?_ ?_ (by decide) (by decide) (by decide) (by decide) (by decide)
              (by decide) (by decide) (by decide) (by decide)
           · simp [gftRender, gftLengthSuffix, timeBitNames, arrRepeat, hm1, hex,
               strL] <;> exact fun h => hex ⟨h, rfl⟩
           · decide)
        | (refine rt_zone _ _ (strL "timestamp") (strL " without time zon") 'e' _ m hm
              (gft_plain _ _ _ m
                (pyFind_eq_neg_one_of_not_mem _ _ '"' (by simp) (by decide))
                (pyFind_eq_neg_one_of_not_mem _ _ '.' (by simp) (by decide))
                (by decide) (by decide) (by decide))
              ?_ ?_ (by decide) (by decide) (by decide) (by decide) (by decide)
              (by decide) (by decide) (by decide) (by decide)
           · simp [gftRender, gftLengthSuffix, timeBitNames, arrRepeat, hm1, hex,
               strL] <;> exact fun h => hex ⟨h, rfl⟩
           · decide)
        | (refine rt_zone _ _ (strL "timestamp") (strL " with time zon") 'e' _ m hm
              (gft_plain _ _ _ m
                (pyFind_eq_neg_one_of_not_mem _ _ '"' (by simp) (by decide))
                (pyFind_eq_neg_one_of_not_mem _ _ '.' (by simp) (by decide))
                (by decide) (by decide) (by decide))
              ?_ ?_ (by decide) (by decide) (by decide) (by decide) (by decide)
              (by decide) (by decide) (by decide) (by decide)
           · simp [gftRender, gftLengthSuffix, timeBitNames, arrRepeat, hm1, hex,
               strL] <;> exact fun h => hex ⟨h, rfl⟩
           · decide)

/-- Witness for `c1_round_trip_known_set` at the modifier 655368 and the
modifier 7, both at concrete schema/name/dimension combinations. -/
theorem c1_round_trip_witness :
    roundTripOk (strL "public") (strL "numeric") 1 655368 = true ∧
    roundTripOk (strL "pg_catalog") (strL "time with time zone") 1 7 = true :=
  ⟨c1_round_trip_known_set 655368 (.inr (by decide)) (strL "public")
      (strL "numeric") (by decide) 1 (by decide) (by decide),
   c1_round_trip_known_set 7 (.inr (by decide)) (strL "pg_catalog")
      (strL "time with time zone") (by decide) 1 (by decide) (by decide)⟩

/-- C4: the schema-prefix skip of `get_full_type` is a single-character
index, not a slice.  For schema `myschema` and raw type name
`myschema."mytype"` the code keeps only character 9 (a double quote), which
the quote-stripping step then reduces to the empty string, so the result is
`''` instead of the display string for the base name `mytype` that the
stated prefix-stripping behaviour requires. -/
theorem c4_schema_strip_single_char :
    get_full_type (some (strL "myschema")) (strL "myschema.\x22mytype\x22") false 0 (-1) =
      some (strL "") ∧
    strL "" ≠ strL "mytype" := by decide

/-- C6: `parse_rule_definition` on a rule with a WHERE clause and DO INSTEAD
yields event `Insert`, condition `(cond)`, do_instead true and statements
`(stmt);`; without a WHERE clause it yields an empty condition and
do_instead false; and on text matching none of the patterns every field
independently degrades to an empty string or false instead of an error. -/
theorem c6_rule_definition_parse :
    parse_rule_definition
      [strL "CREATE RULE r AS ON INSERT TO t WHERE (cond) DO INSTEAD (stmt);"] =
      .ok ⟨strL "Insert", true, strL "(stmt);", strL "(cond)"⟩ ∧
    parse_rule_definition
      [strL "CREATE RULE r AS ON UPDATE TO t DO (stmt);"] =
      .ok ⟨strL "Update", false, strL "(stmt);", strL ""⟩ ∧
    parse_rule_definition [strL "x"] =
      .ok ⟨strL "", false, strL "", strL ""⟩ := by decide

/-- C5 (counterexample): the claim's concrete example is wrong on the code:
`(655364 - 4) & 0xFFFF` is 0, not 4, so `get_full_type` with modifier 655364
renders `numeric(10,0)`, not `numeric(10,4)` (the modifier encoding
`numeric(10,4)` is 655368). -/
theorem c5_numeric_example_counterexample :
    get_full_type (some (strL "public")) (strL "numeric") false 0 655364 =
      some (strL "numeric(10,0)") ∧
    strL "numeric(10,0)" ≠ strL "numeric(10,4)" := by decide

/-- C5 (amended): for every modifier other than -1, `get_full_type` decodes
the length/precision suffix per type exactly as stated - `numeric` renders
`(precision,scale)` with precision `(typmod - 4) >> 16` and scale
`(typmod - 4) & 0xFFFF`, the time/timestamp and bit/varbit families render
`(typmod)` verbatim (inserted before the with/without time zone qualifier
where applicable), `interval` renders `(typmod & 0xFFFF)`, `date` produces
no suffix even though a modifier is present, and all other types render
`(typmod - 4)` - but the concrete example input for `numeric(10,4)` is
655368, while 655364 yields `numeric(10,0)`. -/
theorem c5_modifier_decode (m : Int) (h : m ≠ -1) :
    (get_full_type (some (strL "public")) (strL "numeric") false 0 m =
      some (strL "numeric(" ++ intToChars (pyShr (m - 4) 16) ++ [','] ++
        intToChars (pyAndMask (m - 4) 16) ++ [')'])) ∧
    (∀ name ∈ [strL "time", strL "timetz", strL "timestamp", strL "timestamptz",
        strL "bit", strL "bit varying", strL "varbit"],
      get_full_type (some (strL "public")) name false 0 m =
        some (name ++ ['('] ++ intToChars m ++ [')'])) ∧
    (get_full_type (some (strL "public")) (strL "time with time zone") false 0 m =
      some (strL "time(" ++ intToChars m ++ strL ") with time zone")) ∧
    (get_full_type (some (strL "public")) (strL "time without time zone") false 0 m =
      some (strL "time(" ++ intToChars m ++ strL ") without time zone")) ∧
    (get_full_type (some (strL "public")) (strL "timestamp with time zone") false 0 m =
      some (strL "timestamp(" ++ intToChars m ++ strL ") with time zone")) ∧
    (get_full_type (some (strL "public")) (strL "timestamp without time zone") false 0 m =
      some (strL "timestamp(" ++ intToChars m ++ strL ") without time zone")) ∧
    (get_full_type (some (strL "public")) (strL "interval") false 0 m =
      some (strL "interval(" ++ intToChars (pyAndMask m 16) ++ [')'])) ∧
    (get_full_type (some (strL "public")) (strL "date") false 0 m = some (strL "date")) ∧
    (∀ name ∈ [strL "varchar", strL "bpchar", strL "character varying", strL "text",
        strL "char"],
      get_full_type (some (strL "public")) name false 0 m =
        some (name ++ ['('] ++ intToChars (m - 4) ++ [')'])) ∧
    get_full_type (some (strL "public")) (strL "numeric") false 0 655368 =
      some (strL "numeric(10,4)") := by
  refine ⟨?_, ?_, ?_, ?_, ?_, ?_, ?_, ?_, ?_, by decide⟩
  · rw [gft_plain _ _ 0 m (by decide) (by decide) (by decide) (by decide) (by decide)]
    simp [gftRender, gftLengthSuffix, timeBitNames, arrRepeat, h, strL]
  · intro name hn
    fin_cases hn <;>
      (rw [gft_plain _ _ 0 m (by decide) (by decide) (by decide) (by decide) (by decide)]
       simp [gftRender, gftLengthSuffix, timeBitNames, arrRepeat, h, strL])
  · rw [gft_plain _ _ 0 m (by decide) (by decide) (by decide) (by decide) (by decide)]
    simp [gftRender, gftLengthSuffix, timeBitNames, arrRepeat, h, strL]
  · rw [gft_plain _ _ 0 m (by decide) (by decide) (by decide) (by decide) (by decide)]
    simp [gftRender, gftLengthSuffix, timeBitNames, arrRepeat, h, strL]
  · rw [gft_plain _ _ 0 m (by decide) (by decide) (by decide) (by decide) (by decide)]
    simp [gftRender, gftLengthSuffix, timeBitNames, arrRepeat, h, strL]
  · rw [gft_plain _ _ 0 m (by decide) (by decide) (by decide) (by decide) (by decide)]
    simp [gftRender, gftLengthSuffix, timeBitNames, arrRepeat, h, strL]
  · rw [gft_plain _ _ 0 m (by decide) (by decide) (by decide) (by decide) (by decide)]
    simp [gftRender, gftLengthSuffix, timeBitNames, arrRepeat, h, strL]
  · rw [gft_plain _ _ 0 m (by decide) (by decide) (by decide) (by decide) (by decide)]
    simp [gftRender, gftLengthSuffix, timeBitNames, arrRepeat, h, strL]
  · intro name hn
    fin_cases hn <;>
      (rw [gft_plain _ _ 0 m (by decide) (by decide) (by decide) (by decide) (by decide)]
       simp [gftRender, gftLengthSuffix, timeBitNames, arrRepeat, h, strL])

/-- Witness for `c5_modifier_decode` at the concrete modifier 20. -/
theorem c5_modifier_decode_witness :
    (20 : Int) ≠ -1 ∧
    get_full_type (some (strL "public")) (strL "numeric") false 0 20 =
      some (strL "numeric(0,16)") :=
  ⟨by decide, ((c5_modifier_decode 20 (by decide)).1).trans (by decide)⟩

/-- C7: the two kinds guard the live-override lookup asymmetrically.  For
kind `table`, every row whose display name maps to a present, non-None value
gets that value coerced per column type (`float` when `number`, `int`
otherwise) and stored in both `value` and `setting`; for kind `toast` the
lookup key is prefixed `toast_` and a present-but-falsy value is treated as
absent, leaving `value` and `setting` untouched.  Concretely, a live value
`"0.2"` for `autovacuum_vacuum_scale_factor` with column type `number`
yields the rational 0.2 as a number, not a string. -/
theorem c7_vacuum_guard_asymmetry (rn dn lbl ct : Str) (st : PyV) :
    (∀ (fields : VKind → VMap) (result : List (Str × PyV)) (v : PyV) (q : ℚ),
      alookup (fields .table) rn = some (dn, lbl, ct) →
      alookup result dn = some v →
      v ≠ PyV.vnone →
      pyCoerce ct v = some q →
      parse_vacuum_data fields result (.qok [⟨rn, st⟩]) .table =
        .ok [⟨dn, lbl, ct, .vnum q, some (.vnum q)⟩]) ∧
    (∀ (fields : VKind → VMap) (result : List (Str × PyV)) (v : PyV),
      alookup (fields .toast) rn = some (dn, lbl, ct) →
      alookup result (strL "toast_" ++ dn) = some v →
      pyTruthy v = false →
      parse_vacuum_data fields result (.qok [⟨rn, st⟩]) .toast =
        .ok [⟨dn, lbl, ct, st, none⟩]) ∧
    pyCoerce (strL "number") (.vstr (strL "0.2")) = some (mkRat 1 5) := by
  refine ⟨?_, ?_, by decide⟩
  · intro fields result v q h1 h2 h3 h4
    simp [parse_vacuum_data, vacuumLoop, vacuumRowTable, h1, h2, h3, h4]
  · intro fields result v h1 h2 h3
    simp [parse_vacuum_data, vacuumLoop, vacuumRowToast, h1, h2, h3]

/-- Witness for `c7_vacuum_guard_asymmetry` on the concrete scale-factor
fixtures: the table kind coerces the string `"0.2"` into the number 0.2 and
stores it in `value` and `setting`, while the toast kind skips the falsy
TOAST override. -/
theorem c7_vacuum_guard_witness :
    parse_vacuum_data (fun _ => savfMap) savfResult
      (.qok [⟨strL "autovacuum_vacuum_scale_factor", .vstr (strL "0.1")⟩]) .table =
      .ok [⟨strL "autovacuum_vacuum_scale_factor", strL "Vacuum scale factor",
        strL "number", .vnum (mkRat 1 5), some (.vnum (mkRat 1 5))⟩] ∧
    parse_vacuum_data (fun _ => savfMap) savfToastResult
      (.qok [⟨strL "autovacuum_vacuum_scale_factor", .vstr (strL "0.1")⟩]) .toast =
      .ok [⟨strL "autovacuum_vacuum_scale_factor", strL "Vacuum scale factor",
        strL "number", .vstr (strL "0.1"), none⟩] :=
  ⟨(c7_vacuum_guard_asymmetry (strL "autovacuum_vacuum_scale_factor")
      (strL "autovacuum_vacuum_scale_factor") (strL "Vacuum scale factor")
      (strL "number") (.vstr (strL "0.1"))).1
      (fun _ => savfMap) savfResult (.vstr (strL "0.2")) (mkRat 1 5)
      (by decide) (by decide) (by decide) (by decide),
   (c7_vacuum_guard_asymmetry (strL "autovacuum_vacuum_scale_factor")
      (strL "autovacuum_vacuum_scale_factor") (strL "Vacuum scale factor")
      (strL "number") (.vstr (strL "0.1"))).2.1
      (fun _ => savfMap) savfToastResult (.vstr (strL ""))
      (by decide) (by decide) (by decide)⟩

/-- C8: `get_types` never raises at its public boundary: an executor-reported
failure is returned as the unchanged failure pair with no retry, every row
list produces either a failure pair or a success pair (the row loop runs
inside a `try` whose handler converts any exception into
`(false, message)`), and the malformed row whose `elemoid` is NULL concretely
produces the failure pair carrying the exception message. -/
theorem c8_get_types_error_boundary :
    (∀ msg : Str, get_types (.qfail msg) = (false, .inl msg)) ∧
    (∀ rows : List TypeRow,
      (∃ e, get_types (.qok rows) = (false, .inl e)) ∨
      (∃ l, get_types (.qok rows) = (true, .inr l))) ∧
    get_types (.qok [⟨strL "badrow", none, false⟩]) =
      (false, .inl unboundTypevalMsg) := by
  refine ⟨fun msg => rfl, fun rows => ?_, by decide⟩
  cases hres : getTypesRows none rows with
  | error e => exact .inl ⟨e, by simp [get_types, hres]⟩
  | ok l => exact .inr ⟨l, by simp [get_types, hres]⟩

/-- C9: `get_vacuum_toast_settings` takes `name` and `label` from the
`toast` sub-mapping but reads `column_type` from the `table` sub-mapping, so
a settings row whose raw name is a key of the `toast` sub-mapping but not of
the `table` sub-mapping raises an uncaught `KeyError` instead of returning a
result. -/
theorem c9_toast_column_type_from_table (ft ftoast : VMap) (rn dn lbl ct : Str)
    (st : PyV)
    (h1 : alookup ftoast rn = some (dn, lbl, ct))
    (h2 : alookup ft rn = none) :
    get_vacuum_toast_settings ft ftoast (.qok [⟨rn, st⟩]) = .error (.keyError rn) ∧
    (∀ (ft2 : VMap) (dn2 lbl2 ct2 : Str),
      alookup ft2 rn = some (dn2, lbl2, ct2) →
      get_vacuum_toast_settings ft2 ftoast (.qok [⟨rn, st⟩]) =
        .ok [⟨dn, lbl, ct2, st, none⟩]) := by
  constructor
  · simp [get_vacuum_toast_settings, vacuumLoop, h1, h2]
  · intro ft2 dn2 lbl2 ct2 h3
    simp [get_vacuum_toast_settings, vacuumLoop, h1, h3]

/-- Witness for `c9_toast_column_type_from_table` on a one-entry toast
mapping whose key is missing from (respectively present in) the table
mapping. -/
theorem c9_toast_column_type_witness :
    get_vacuum_toast_settings []
      [(strL "x", (strL "x", strL "Label", strL "string"))]
      (.qok [⟨strL "x", .vstr (strL "1")⟩]) = .error (.keyError (strL "x")) ∧
    get_vacuum_toast_settings [(strL "x", (strL "x", strL "L2", strL "number"))]
      [(strL "x", (strL "x", strL "Label", strL "string"))]
      (.qok [⟨strL "x", .vstr (strL "1")⟩]) =
      .ok [⟨strL "x", strL "Label", strL "number", .vstr (strL "1"), none⟩] :=
  ⟨(c9_toast_column_type_from_table []
      [(strL "x", (strL "x", strL "Label", strL "string"))]
      (strL "x") (strL "x") (strL "Label") (strL "string") (.vstr (strL "1"))
      (by decide) (by decide)).1,
   (c9_toast_column_type_from_table []
      [(strL "x", (strL "x", strL "Label", strL "string"))]
      (strL "x") (strL "x") (strL "Label") (strL "string") (.vstr (strL "1"))
      (by decide) (by decide)).2
      [(strL "x", (strL "x", strL "L2", strL "number"))]
      (strL "x") (strL "L2") (strL "number") (by decide)⟩

/-- C10: the classification variable `typeval` is only assigned when a row's
`elemoid` is truthy but is read unconditionally: a falsy-elemoid first row
makes the whole call return `(false, message)` through the exception
boundary, and a falsy-elemoid row following a classified row is emitted with
the previous row's classification while its length/precision flags are false
and its bounds are zero. -/
theorem c10_typeval_unassigned (row : TypeRow) (rest : List TypeRow)
    (h : truthyElem row.elemoid = false) :
    get_types (.qok (row :: rest)) = (false, .inl unboundTypevalMsg) ∧
    (∀ (r1 r2 : TypeRow) (e1 : ElemId) (l1 p1 : Bool) (tv : Str),
      r1.elemoid = some e1 → elemTruthy e1 = true →
      get_length_precision e1 = (l1, p1, tv) →
      truthyElem r2.elemoid = false →
      ∃ entry1, get_types (.qok [r1, r2]) = (true, .inr [entry1,
        ⟨r2.typname, r2.typname, tv, false, false, 0, 0, r2.is_collatable⟩])) := by
  constructor
  · simp [get_types, getTypesRows, h]
  · intro r1 r2 e1 l1 p1 tv h1 h2 h3 h4
    have ht1 : truthyElem (some e1) = true := by simpa [truthyElem] using h2
    refine ⟨⟨r1.typname, r1.typname, tv, p1, l1,
      (if l1 = true then (if tv = ['D'] then 0 else 1) else 0),
      (if l1 = true then
        (if p1 = true then 1000
         else if (if l1 = true then (if tv = ['D'] then 0 else 1) else 0) ≠ 0 then
           2147483647
         else 10)
       else 0),
      r1.is_collatable⟩, ?_⟩
    simp [get_types, getTypesRows, h1, ht1, h3, h4]

/-- Witness for `c10_typeval_unassigned`: a NULL-elemoid first row fails
with the unbound-local message, and a zero-OID row following a classified
`varchar` row inherits the `L` classification with false flags and zero
bounds. -/
theorem c10_typeval_unassigned_witness :
    get_types (.qok [⟨strL "t1", none, false⟩]) = (false, .inl unboundTypevalMsg) ∧
    (∃ entry1, get_types (.qok [⟨strL "varchar", some (.oid 1043), true⟩,
        ⟨strL "weird", some (.oid 0), false⟩]) =
      (true, .inr [entry1,
        ⟨strL "weird", strL "weird", ['L'], false, false, 0, 0, false⟩])) :=
  ⟨(c10_typeval_unassigned ⟨strL "t1", none, false⟩ [] (by decide)).1,
   (c10_typeval_unassigned ⟨strL "t1", none, false⟩ [] (by decide)).2
     ⟨strL "varchar", some (.oid 1043), true⟩ ⟨strL "weird", some (.oid 0), false⟩
     (.oid 1043) true false ['L'] rfl (by decide) (by decide) (by decide)⟩
